import Mathlib

/-!
Verification of the cim-domain-git event-sourcing core.

Shallow embedding of the Rust sources into Lean:
* `src/nats/subject.rs`     — subject router (aggregates, actions, mapper)
* `src/value_objects/mod.rs`— validated value objects (`CommitHash`)
* `src/nats/projection.rs`  — repository-stats projection and the
  per-message processing loop of the projection manager
* `src/nats/event_store.rs` — serial `append_batch` over an abstract transport
* `src/nats/subscriber.rs`  — command dispatcher ack lifecycle
* `src/analyzers/collaboration_analyzer.rs` — code-ownership calculation
* `src/analyzers/code_quality_analyzer.rs`  — risk bucketing and the
  circular-dependency DFS
* `src/aggregate/mod.rs`    — `Repository` aggregate

Modelling conventions: machine integers are `Nat`, timestamps are `Int`
(comparison is all the code uses), `f64` quantities are `ℚ` (every arithmetic
fact proved is about the real-valued formulas, not float rounding), Rust
`HashMap`s are association lists or function-valued maps with the iteration
order made explicit where the code depends on it, and fallible constructors
return `Except`.
-/

set_option maxHeartbeats 1000000

deriving instance DecidableEq for Except

namespace CimDomainGit

/-! ## Subject router (src/nats/subject.rs) -/

/-- The Git domain identifier (`DOMAIN` in subject.rs). -/
def DOMAIN : String := "git"

/-- Aggregate types in the Git domain. -/
inductive Aggregate
  | Repository
  | Commit
  | Branch
  | Tag
  | Remote
deriving DecidableEq, Repr

/-- `impl fmt::Display for Aggregate`. -/
def Aggregate.display : Aggregate → String
  | .Repository => "repository"
  | .Commit => "commit"
  | .Branch => "branch"
  | .Tag => "tag"
  | .Remote => "remote"

/-- Message types following CIM conventions. -/
inductive MessageType
  | Command
  | Event
  | Query
deriving DecidableEq, Repr

/-- `impl fmt::Display for MessageType`. -/
def MessageType.display : MessageType → String
  | .Command => "cmd"
  | .Event => "event"
  | .Query => "query"

/-- Event actions (past tense of commands). -/
inductive EventAction
  | RepositoryCloned
  | RepositoryDeleted
  | RepositoryAnalyzed
  | CommitAnalyzed
  | BranchCreated
  | BranchDeleted
  | BranchMerged
  | TagCreated
  | TagDeleted
  | RemoteAdded
  | RemoteRemoved
  | RemoteFetched
  | RemotePushed
  | FileAnalyzed
  | MergeDetected
deriving DecidableEq, Repr

instance : Fintype EventAction :=
  ⟨⟨{.RepositoryCloned, .RepositoryDeleted, .RepositoryAnalyzed, .CommitAnalyzed,
     .BranchCreated, .BranchDeleted, .BranchMerged, .TagCreated, .TagDeleted,
     .RemoteAdded, .RemoteRemoved, .RemoteFetched, .RemotePushed, .FileAnalyzed,
     .MergeDetected}, by decide⟩, by intro a; cases a <;> decide⟩

/-- `EventAction::as_str`. -/
def EventAction.as_str : EventAction → String
  | .RepositoryCloned => "cloned"
  | .RepositoryDeleted => "deleted"
  | .RepositoryAnalyzed => "analyzed"
  | .CommitAnalyzed => "analyzed"
  | .BranchCreated => "created"
  | .BranchDeleted => "deleted"
  | .BranchMerged => "merged"
  | .TagCreated => "created"
  | .TagDeleted => "deleted"
  | .RemoteAdded => "added"
  | .RemoteRemoved => "removed"
  | .RemoteFetched => "fetched"
  | .RemotePushed => "pushed"
  | .FileAnalyzed => "analyzed"
  | .MergeDetected => "detected"

/-- `EventAction::aggregate`. -/
def EventAction.aggregate : EventAction → Aggregate
  | .RepositoryCloned => .Repository
  | .RepositoryDeleted => .Repository
  | .RepositoryAnalyzed => .Repository
  | .CommitAnalyzed => .Commit
  | .FileAnalyzed => .Commit
  | .MergeDetected => .Commit
  | .BranchCreated => .Branch
  | .BranchDeleted => .Branch
  | .BranchMerged => .Branch
  | .TagCreated => .Tag
  | .TagDeleted => .Tag
  | .RemoteAdded => .Remote
  | .RemoteRemoved => .Remote
  | .RemoteFetched => .Remote
  | .RemotePushed => .Remote

/-- NATS subject for the Git domain (`struct GitSubject`). -/
structure GitSubject where
  message_type : MessageType
  aggregate : Aggregate
  action : String
deriving DecidableEq, Repr

/-- `GitSubject::event`. -/
def GitSubject.event (action : EventAction) : GitSubject :=
  { message_type := .Event, aggregate := action.aggregate, action := action.as_str }

/-- `impl fmt::Display for GitSubject`: `{DOMAIN}.{message_type}.{aggregate}.{action}`. -/
def GitSubject.display (s : GitSubject) : String :=
  DOMAIN ++ "." ++ s.message_type.display ++ "." ++ s.aggregate.display ++ "." ++ s.action

/-- `SubjectMapper::event_subject`: map an event type string to a subject.
The Rust `match` on `&str` literals is rendered as an if-then-else chain. -/
def SubjectMapper.event_subject (event_type : String) : Option GitSubject :=
  if event_type = "RepositoryCloned" then some (GitSubject.event .RepositoryCloned)
  else if event_type = "RepositoryDeleted" then some (GitSubject.event .RepositoryDeleted)
  else if event_type = "RepositoryAnalyzed" then some (GitSubject.event .RepositoryAnalyzed)
  else if event_type = "CommitAnalyzed" then some (GitSubject.event .CommitAnalyzed)
  else if event_type = "BranchCreated" then some (GitSubject.event .BranchCreated)
  else if event_type = "BranchDeleted" then some (GitSubject.event .BranchDeleted)
  else if event_type = "BranchMerged" then some (GitSubject.event .BranchMerged)
  else if event_type = "TagCreated" then some (GitSubject.event .TagCreated)
  else if event_type = "TagDeleted" then some (GitSubject.event .TagDeleted)
  else if event_type = "RemoteAdded" then some (GitSubject.event .RemoteAdded)
  else if event_type = "RemoteRemoved" then some (GitSubject.event .RemoteRemoved)
  else if event_type = "RemoteFetched" then some (GitSubject.event .RemoteFetched)
  else if event_type = "RemotePushed" then some (GitSubject.event .RemotePushed)
  else if event_type = "FileAnalyzed" then some (GitSubject.event .FileAnalyzed)
  else if event_type = "MergeDetected" then some (GitSubject.event .MergeDetected)
  else none

/-- Names enumerated by `SubjectMapper::event_subject`. -/
def knownEventNames : List String :=
  ["RepositoryCloned", "RepositoryDeleted", "RepositoryAnalyzed", "CommitAnalyzed",
   "BranchCreated", "BranchDeleted", "BranchMerged", "TagCreated", "TagDeleted",
   "RemoteAdded", "RemoteRemoved", "RemoteFetched", "RemotePushed", "FileAnalyzed",
   "MergeDetected"]

/-- The two event names whose subjects collide (`git.event.commit.analyzed`). -/
def collidingEventNames : List String := ["CommitAnalyzed", "FileAnalyzed"]

/-! ## Errors and value objects (src/lib.rs, src/value_objects/mod.rs) -/

/-- `GitDomainError` (lib.rs). `InfrastructureError` wraps `anyhow::Error`,
modelled by its message string. -/
inductive GitDomainError
  | RepositoryNotFound (msg : String)
  | InvalidCommitHash (msg : String)
  | GitOperationFailed (msg : String)
  | GraphExtractionFailed (msg : String)
  | ValidationError (msg : String)
  | InfrastructureError (msg : String)
deriving DecidableEq, Repr

/-- `char::is_ascii_hexdigit` from the Rust standard library. -/
def isAsciiHexdigit (c : Char) : Bool :=
  ('0' ≤ c && c ≤ '9') || ('a' ≤ c && c ≤ 'f') || ('A' ≤ c && c ≤ 'F')

/-- `struct CommitHash(String)` — the validated, normalized hash string. -/
structure CommitHash where
  hash : String
deriving DecidableEq, Repr

/-- `CommitHash::new`: hex-only check over `hash.chars()`, minimum length 7,
lowercase normalization. Note the source has no maximum-length check. The
string is handled through its character list (what `chars()` iterates). -/
def CommitHash.new (hash : String) : Except GitDomainError CommitHash :=
  if ¬ (hash.data.all isAsciiHexdigit) then
    .error (.InvalidCommitHash hash)
  else if hash.data.length < 7 then
    .error (.InvalidCommitHash "Commit hash too short")
  else
    .ok ⟨String.mk (hash.data.map Char.toLower)⟩

/-! ## Domain events (src/events/mod.rs)

`RepositoryId` is an opaque UUID compared by value; modelled as `String`.
`DateTime<Utc>` is modelled as `Int`. `BranchName`, `TagName`, `FilePath`,
`RemoteUrl` and `AuthorInfo` payload fields are carried as the strings the
verified code paths compare; payload fields of event variants that no claim's
code path reads are kept only where their types are simple. -/

/-- Event payload `RepositoryCloned`. -/
structure RepositoryClonedEvt where
  repository_id : String
  remote_url : String
  local_path : String
  timestamp : Int
deriving DecidableEq, Repr

/-- Event payload `CommitAnalyzed`. `files_changed` entries are paths. -/
structure CommitAnalyzedEvt where
  repository_id : String
  commit_hash : String
  parents : List String
  author : String
  message : String
  files_changed : List String
  commit_timestamp : Int
  timestamp : Int
deriving DecidableEq, Repr

/-- Event payload `BranchCreated`. -/
structure BranchCreatedEvt where
  repository_id : String
  branch_name : String
  commit_hash : String
  source_branch : Option String
  timestamp : Int
deriving DecidableEq, Repr

/-- Event payload `BranchDeleted`. -/
structure BranchDeletedEvt where
  repository_id : String
  branch_name : String
  last_commit : String
  timestamp : Int
deriving DecidableEq, Repr

/-- Event payload `TagCreated`. -/
structure TagCreatedEvt where
  repository_id : String
  tag_name : String
  commit_hash : String
  message : Option String
  tagger : Option String
  timestamp : Int
deriving DecidableEq, Repr

/-- Event payload `RepositoryMetadataUpdated` (the `updates` block is not read
by any verified code path and is elided). -/
structure RepositoryMetadataUpdatedEvt where
  repository_id : String
  timestamp : Int
deriving DecidableEq, Repr

/-- Event payload `MergeDetected`. -/
structure MergeDetectedEvt where
  repository_id : String
  merge_commit : String
  parents : List String
  branches : List String
  merge_strategy : Option String
  conflicts : List String
  timestamp : Int
deriving DecidableEq, Repr

/-- Event payload `FileAnalyzed` (the `metrics` block is not read by any
verified code path and is elided). -/
structure FileAnalyzedEvt where
  repository_id : String
  file_path : String
  commit_hash : String
  dependencies : List String
  timestamp : Int
deriving DecidableEq, Repr

/-- Event payload `RepositoryAnalyzed`. -/
structure RepositoryAnalyzedEvt where
  repository_id : String
  path : String
  name : String
  branch_count : Nat
  commit_count : Nat
  timestamp : Int
deriving DecidableEq, Repr

/-- Event payload `CommitGraphExtracted` (graph payload elided). -/
structure CommitGraphExtractedEvt where
  repository_id : String
  timestamp : Int
deriving DecidableEq, Repr

/-- Event payload `DependencyGraphExtracted` (graph payload elided). -/
structure DependencyGraphExtractedEvt where
  repository_id : String
  timestamp : Int
deriving DecidableEq, Repr

/-- `enum GitDomainEvent` — the tagged sum of all Git domain events. -/
inductive GitDomainEvent
  | RepositoryCloned (e : CimDomainGit.RepositoryClonedEvt)
  | CommitAnalyzed (e : CimDomainGit.CommitAnalyzedEvt)
  | BranchCreated (e : CimDomainGit.BranchCreatedEvt)
  | BranchDeleted (e : CimDomainGit.BranchDeletedEvt)
  | TagCreated (e : CimDomainGit.TagCreatedEvt)
  | CommitGraphExtracted (e : CimDomainGit.CommitGraphExtractedEvt)
  | DependencyGraphExtracted (e : CimDomainGit.DependencyGraphExtractedEvt)
  | RepositoryMetadataUpdated (e : CimDomainGit.RepositoryMetadataUpdatedEvt)
  | MergeDetected (e : CimDomainGit.MergeDetectedEvt)
  | FileAnalyzed (e : CimDomainGit.FileAnalyzedEvt)
  | RepositoryAnalyzed (e : CimDomainGit.RepositoryAnalyzedEvt)
deriving DecidableEq, Repr

/-! ## Event envelope (src/events/envelope.rs, src/events/metadata.rs) -/

/-- `EventMetadata`: identifiers are modelled as strings, `occurred_at` as `Int`. -/
structure EventMetadata where
  event_id : String
  correlation_id : String
  causation_id : String
  occurred_at : Int
  schema_version : Nat
  user_id : Option String
deriving DecidableEq, Repr

/-- `struct EventEnvelope` — a domain event plus metadata. -/
structure EventEnvelope where
  metadata : EventMetadata
  event : GitDomainEvent
deriving DecidableEq, Repr

/-- `EventEnvelope::event_type`. -/
def EventEnvelope.event_type (env : EventEnvelope) : String :=
  match env.event with
  | .RepositoryCloned _ => "RepositoryCloned"
  | .CommitAnalyzed _ => "CommitAnalyzed"
  | .BranchCreated _ => "BranchCreated"
  | .BranchDeleted _ => "BranchDeleted"
  | .TagCreated _ => "TagCreated"
  | .CommitGraphExtracted _ => "CommitGraphExtracted"
  | .DependencyGraphExtracted _ => "DependencyGraphExtracted"
  | .RepositoryMetadataUpdated _ => "RepositoryMetadataUpdated"
  | .MergeDetected _ => "MergeDetected"
  | .FileAnalyzed _ => "FileAnalyzed"
  | .RepositoryAnalyzed _ => "RepositoryAnalyzed"

/-- `EventEnvelope::aggregate_id` — the `repository_id` of the wrapped event. -/
def EventEnvelope.aggregate_id (env : EventEnvelope) : String :=
  match env.event with
  | .RepositoryCloned e => e.repository_id
  | .CommitAnalyzed e => e.repository_id
  | .BranchCreated e => e.repository_id
  | .BranchDeleted e => e.repository_id
  | .TagCreated e => e.repository_id
  | .CommitGraphExtracted e => e.repository_id
  | .DependencyGraphExtracted e => e.repository_id
  | .RepositoryMetadataUpdated e => e.repository_id
  | .MergeDetected e => e.repository_id
  | .FileAnalyzed e => e.repository_id
  | .RepositoryAnalyzed e => e.repository_id

/-! ## Repository-stats projection (src/nats/projection.rs) -/

/-- `struct RepositoryStats` — per-repository statistics. -/
structure RepositoryStats where
  repository_id : String
  commit_count : Nat
  branch_count : Nat
  tag_count : Nat
  last_commit_time : Option Int
  total_files_analyzed : Nat
deriving DecidableEq, Repr

/-- `#[derive(Default)]` for `RepositoryStats`. -/
def RepositoryStats.default : RepositoryStats :=
  { repository_id := "", commit_count := 0, branch_count := 0, tag_count := 0,
    last_commit_time := none, total_files_analyzed := 0 }

/-- The `stats` map of `RepositoryStatsProjection`, `HashMap<String, RepositoryStats>`
modelled as a function-valued partial map. -/
def StatsMap : Type := String → Option RepositoryStats

/-- `RepositoryStatsProjection::apply` — `entry(repo_id).or_insert_with(default)`
followed by the per-event mutation. `saturating_sub` is `Nat` subtraction. -/
def RepositoryStatsProjection.apply (stats : StatsMap) (envelope : EventEnvelope) :
    StatsMap :=
  let repo_id := envelope.aggregate_id
  let repo_stats := (stats repo_id).getD { RepositoryStats.default with repository_id := repo_id }
  let repo_stats :=
    match envelope.event with
    | .CommitAnalyzed e =>
        { repo_stats with
          commit_count := repo_stats.commit_count + 1,
          last_commit_time := some e.commit_timestamp }
    | .BranchCreated _ =>
        { repo_stats with branch_count := repo_stats.branch_count + 1 }
    | .BranchDeleted _ =>
        { repo_stats with branch_count := repo_stats.branch_count - 1 }
    | .TagCreated _ =>
        { repo_stats with tag_count := repo_stats.tag_count + 1 }
    | .FileAnalyzed _ =>
        { repo_stats with total_files_analyzed := repo_stats.total_files_analyzed + 1 }
    | _ => repo_stats
  fun k => if k = repo_id then some repo_stats else stats k

/-- `RepositoryStatsProjection::handles_event_type`. -/
def RepositoryStatsProjection.handles_event_type (event_type : String) : Bool :=
  event_type = "CommitAnalyzed" || event_type = "BranchCreated" ||
  event_type = "BranchDeleted" || event_type = "TagCreated" ||
  event_type = "FileAnalyzed"

/-! ## Projection manager per-message loop (src/nats/projection.rs, `process_events`)

One iteration of the delivery loop, abstracted over the three outcomes the code
branches on: whether the payload parses as an `EventEnvelope`, whether the
projection `handles_event_type`, and whether `Projection::apply` succeeds.
The trace records, in program order, the calls the loop body makes. -/

/-- Observable steps of one iteration of `ProjectionManager::process_events`. -/
inductive LoopAction
  | applyCalled
  | positionSaved
  | messageAcked
deriving DecidableEq, Repr

/-- One iteration of the `process_events` loop. In the source, `message.ack()`
is executed unconditionally after the parse/apply match. A `save_position`
failure is only logged, so `positionSaved` records the call being made. -/
def process_message (parse_ok : Bool) (handles : Bool) (apply_ok : Bool) :
    List LoopAction :=
  (if parse_ok then
    if handles then
      if apply_ok then [LoopAction.applyCalled, LoopAction.positionSaved]
      else [LoopAction.applyCalled]
    else []
  else []) ++ [LoopAction.messageAcked]

/-! ## Event store (src/nats/event_store.rs)

`EventStore::append` publishes the envelope through the event publisher and
then reads `stream.info().state.messages` as the assigned sequence. The
transport is abstracted by two capabilities over an opaque store state `σ`:
`publish` (which may fail and updates the state) and `infoMessages` (which may
fail and reports the current message count). `append_batch` loops over
`append` with `?`, accumulating sequences. -/

section EventStoreModel

variable {σ Env Err : Type}

/-- `EventStore::append`: publish, then read the stream message count. -/
def EventStore.append (publish : σ → Env → σ × Except Err Unit)
    (infoMessages : σ → Except Err Nat) (s : σ) (envelope : Env) :
    σ × Except Err Nat :=
  match publish s envelope with
  | (s', .ok _) =>
      match infoMessages s' with
      | .ok m => (s', .ok m)
      | .error e => (s', .error e)
  | (s', .error e) => (s', .error e)

/-- The loop body of `EventStore::append_batch`: `for envelope in envelopes
{ let seq = self.append(envelope).await?; sequences.push(seq); }`. -/
def EventStore.append_batch_go (publish : σ → Env → σ × Except Err Unit)
    (infoMessages : σ → Except Err Nat) (s : σ) (envelopes : List Env)
    (sequences : List Nat) : σ × Except Err (List Nat) :=
  match envelopes with
  | [] => (s, .ok sequences.reverse)
  | envelope :: rest =>
      match EventStore.append publish infoMessages s envelope with
      | (s', .ok seq) => EventStore.append_batch_go publish infoMessages s' rest (seq :: sequences)
      | (s', .error e) => (s', .error e)

/-- `EventStore::append_batch`. -/
def EventStore.append_batch (publish : σ → Env → σ × Except Err Unit)
    (infoMessages : σ → Except Err Nat) (s : σ) (envelopes : List Env) :
    σ × Except Err (List Nat) :=
  EventStore.append_batch_go publish infoMessages s envelopes []

/-- Modelled from the spec: "`append_batch(envelopes) → [sequences]`: serial
append". The natural structural recursion that appends one envelope, then the
rest, collecting the sequences in order. Used as the reference against which
the accumulator loop is proved equal. -/
def append_serial_spec (publish : σ → Env → σ × Except Err Unit)
    (infoMessages : σ → Except Err Nat) (s : σ) :
    List Env → σ × Except Err (List Nat)
  | [] => (s, .ok [])
  | envelope :: rest =>
      match EventStore.append publish infoMessages s envelope with
      | (s', .ok seq) =>
          match append_serial_spec publish infoMessages s' rest with
          | (s'', .ok seqs) => (s'', .ok (seq :: seqs))
          | (s'', .error e) => (s'', .error e)
      | (s', .error e) => (s', .error e)

end EventStoreModel

/-! ## Command dispatcher ack lifecycle (src/nats/subscriber.rs, src/nats/command_ack.rs) -/

/-- `enum AckStatus` (command_ack.rs). -/
inductive AckStatus
  | Received
  | Processing
  | Completed
  | Failed
  | Rejected
  | TimedOut
deriving DecidableEq, Repr

/-- Terminal ack states: `Completed`, `Failed`, `Rejected` (the states after
which `AckSubscriber` stops waiting; `TimedOut` is synthesized by waiters, the
dispatcher never publishes it). -/
def AckStatus.isTerminal : AckStatus → Bool
  | .Completed => true
  | .Failed => true
  | .Rejected => true
  | _ => false

/-- A registered command handler, seen through the ack lifecycle: its
registered `command_type` and the outcome of `handle` on the incoming command. -/
structure HandlerModel where
  command_type : String
  outcome : Except String Unit
deriving Repr

/-- The ack statuses published, in order, by `CommandSubscriber::handle_message`
for one message: `Received` first; a payload that fails to deserialize is
`Rejected`; otherwise the first handler whose `command_type` matches runs
between `Processing` and `Completed`/`Failed`; with no matching handler the
command is `Rejected`. -/
def CommandSubscriber.handle_message (deserialize_ok : Bool) (command_type : String)
    (handlers : List HandlerModel) : List AckStatus :=
  if ¬ deserialize_ok then
    [AckStatus.Received, AckStatus.Rejected]
  else
    match handlers.find? (fun h => h.command_type = command_type) with
    | some handler =>
        match handler.outcome with
        | .ok _ => [AckStatus.Received, AckStatus.Processing, AckStatus.Completed]
        | .error _ => [AckStatus.Received, AckStatus.Processing, AckStatus.Failed]
    | none => [AckStatus.Received, AckStatus.Rejected]

/-- The ack-stream shape asserted by the spec: the acks before the last form a
prefix of `Received, Processing` (in particular none of them is terminal), the
stream ends in exactly one terminal state, and a `Rejected` terminal is only
reached when no `Processing` was published. -/
def validAckTrace (t : List AckStatus) : Bool :=
  t.dropLast.isPrefixOf [AckStatus.Received, AckStatus.Processing] &&
  t.dropLast.all (fun a => ¬ a.isTerminal) &&
  (match t.getLast? with
   | some a => a.isTerminal
   | none => false) &&
  (if t.getLast? = some AckStatus.Rejected then ¬ t.contains AckStatus.Processing else true)

/-! ## Repository aggregate (src/aggregate/mod.rs) -/

/-- `struct RepositoryMetadata`. `custom` is `HashMap<String, serde_json::Value>`,
modelled as an association list of rendered values. -/
structure RepositoryMetadata where
  name : String
  description : Option String
  primary_language : Option String
  created_at : Int
  updated_at : Int
  size_bytes : Option Nat
  commit_count : Option Nat
  custom : List (String × String)
deriving DecidableEq, Repr

/-- `struct Repository` — the aggregate root. `branches` is
`HashMap<BranchName, CommitHash>`, modelled as an association list. -/
structure Repository where
  id : String
  remote_url : Option String
  local_path : Option String
  head : Option String
  branches : List (String × String)
  metadata : RepositoryMetadata
  version : Nat
deriving DecidableEq, Repr

/-- `HashMap::insert` on the association-list model of `branches`: replace the
binding if the key is present, otherwise add it. -/
def branchesInsert (m : List (String × String)) (k v : String) : List (String × String) :=
  if m.any (fun p => p.1 = k) then
    m.map (fun p => if p.1 = k then (k, v) else p)
  else
    m ++ [(k, v)]

/-- `Repository::apply_event`: fold one event into the aggregate and bump
`version`. Always returns `Ok` in the source. -/
def Repository.apply_event (self : Repository) (event : GitDomainEvent) :
    Except GitDomainError Repository :=
  let self :=
    match event with
    | .RepositoryCloned e =>
        { self with
          remote_url := some e.remote_url,
          local_path := some e.local_path,
          metadata := { self.metadata with updated_at := e.timestamp } }
    | .CommitAnalyzed e =>
        { self with
          metadata :=
            { self.metadata with
              commit_count := some ((self.metadata.commit_count.getD 0) + 1),
              updated_at := e.timestamp } }
    | .BranchCreated e =>
        { self with
          branches := branchesInsert self.branches e.branch_name e.commit_hash,
          metadata := { self.metadata with updated_at := e.timestamp } }
    | _ => self
  .ok { self with version := self.version + 1 }

/-- `Repository::clone_repository`: rejected when `local_path` is already set,
otherwise emits one `RepositoryCloned` event and applies it. `Utc::now()` is
passed in as `now`. The returned pair is the post-state of `&mut self` and the
`Result`. -/
def Repository.clone_repository (self : Repository) (remote_url : String)
    (local_path : String) (now : Int) :
    Repository × Except GitDomainError (List GitDomainEvent) :=
  if self.local_path.isSome then
    (self, .error (.GitOperationFailed "Repository already cloned"))
  else
    let event : RepositoryClonedEvt :=
      { repository_id := self.id, remote_url := remote_url,
        local_path := local_path, timestamp := now }
    match self.apply_event (.RepositoryCloned event) with
    | .ok self' => (self', .ok [GitDomainEvent.RepositoryCloned event])
    | .error e => (self, .error e)

/-! ## Collaboration analyzer — code ownership (src/analyzers/collaboration_analyzer.rs)

`calculate_ownership` builds, per file, `author_counts: HashMap<AuthorInfo, u32>`
and takes `max_by_key` over its iterator. The iteration order of a Rust
`HashMap` is unspecified, so the per-file core below receives the map's
contents as a list in that (unspecified) iteration order; authors are their
identity strings. `Iterator::max_by_key` returns the LAST element among equal
maxima, which the fold below reproduces. -/

/-- One step of `Iterator::max_by_key` on `(author, count)` pairs: keep the
later element when counts tie (Rust returns the last maximal element). -/
def max_by_key_step (acc : Option (String × Nat)) (p : String × Nat) :
    Option (String × Nat) :=
  match acc with
  | none => some p
  | some q => if q.2 ≤ p.2 then some p else some q

/-- `author_counts.iter().max_by_key(|(_, count)| *count)`: last maximal
element of the iteration. -/
def max_by_key_count (author_counts : List (String × Nat)) : Option (String × Nat) :=
  author_counts.foldl max_by_key_step none

/-- Event `CodeOwnershipCalculated` (repository id and timestamp elided). -/
structure CodeOwnershipCalculated where
  path : String
  primary_owner : String
  ownership_percentage : ℚ
  contributors : List (String × ℚ)
  total_commits : Nat
deriving DecidableEq, Repr

/-- The per-file body of `CollaborationAnalyzer::calculate_ownership`:
`author_counts` is the per-author commit count map in iteration order and
`total_commits = commits.len()`. Files with zero commits are skipped
(`continue`); the `unwrap` on an empty map is modelled as `none`. Contributors
exclude the primary owner and are sorted by share, descending (Rust's
`sort_by` is a stable sort, as is `mergeSort`). -/
def calculate_ownership_file (path : String) (author_counts : List (String × Nat))
    (total_commits : Nat) : Option CodeOwnershipCalculated :=
  if total_commits = 0 then none
  else
    match max_by_key_count author_counts with
    | none => none
    | some (primary_owner, primary_count) =>
        let ownership_percentage : ℚ := (primary_count : ℚ) / (total_commits : ℚ)
        let contributors : List (String × ℚ) :=
          ((author_counts.filter (fun p => p.1 ≠ primary_owner)).map
            (fun p => (p.1, (p.2 : ℚ) / (total_commits : ℚ)))).mergeSort
            (fun a b => decide (b.2 ≤ a.2))
        some { path := path, primary_owner := primary_owner,
               ownership_percentage := ownership_percentage,
               contributors := contributors, total_commits := total_commits }

/-! ## Code-quality analyzer — risk bucketing (src/analyzers/code_quality_analyzer.rs) -/

/-- Risk buckets of `FileChurnCalculated`. -/
inductive RiskLevel
  | Low
  | Medium
  | High
  | Critical
deriving DecidableEq, Repr

/-- The order `Low < Medium < High < Critical`, as a rank. -/
def RiskLevel.rank : RiskLevel → Nat
  | .Low => 0
  | .Medium => 1
  | .High => 2
  | .Critical => 3

/-- `struct CodeQualityAnalyzer` — configuration thresholds. -/
structure CodeQualityAnalyzer where
  large_file_threshold : Nat
  high_complexity_threshold : Nat
  churn_window_days : Nat
deriving DecidableEq, Repr

/-- `CodeQualityAnalyzer::new`. -/
def CodeQualityAnalyzer.new : CodeQualityAnalyzer :=
  { large_file_threshold := 500, high_complexity_threshold := 10, churn_window_days := 90 }

/-- `CodeQualityAnalyzer::calculate_risk_level`: accumulate
`risk_score = 2·churn_rate + complexity/high_complexity_threshold
+ 0.5·(loc/large_file_threshold)` and bucket it. The `match` with `x if x >= c`
guards is the if-chain below. -/
def CodeQualityAnalyzer.calculate_risk_level (self : CodeQualityAnalyzer)
    (churn_rate : ℚ) (complexity : Option Nat) (lines_of_code : Nat) : RiskLevel :=
  let risk_score : ℚ := 0
  let risk_score := risk_score + churn_rate * 2
  let risk_score := risk_score +
    (match complexity with
     | some c => (c : ℚ) / (self.high_complexity_threshold : ℚ)
     | none => 0)
  let risk_score := risk_score + (lines_of_code : ℚ) / (self.large_file_threshold : ℚ) * (1 / 2)
  if 3 ≤ risk_score then .Critical
  else if 2 ≤ risk_score then .High
  else if 1 ≤ risk_score then .Medium
  else .Low

/-! ## Code-quality analyzer — circular-dependency DFS

`detect_circular_dependencies` walks `HashMap<FilePath, Vec<FilePath>>` (here
an association list in iteration order) with a recursive `find_cycle` keeping
`visited`, the DFS `path`, and a per-start-node `rec_stack`. The Lean
embedding adds a fuel parameter to express the recursion; `dfs_fuel` exceeds
the number of nodes mentioned in the graph, which bounds the real recursion
depth (each nested call marks a previously unvisited node as visited). All
theorems hold for every fuel value. -/

/-- `HashMap::get` on the dependency graph; an absent key yields no neighbors
to iterate. -/
def DepGraph.get (graph : List (String × List String)) (file : String) : List String :=
  match graph.find? (fun p => p.1 = file) with
  | some p => p.2
  | none => []

/-- The mutable state threaded through `find_cycle`. -/
structure DfsState where
  visited : List String
  path : List String
  rec_stack : List String
deriving DecidableEq, Repr

/-- `path.iter().position(|p| p == neighbor)`. -/
def list_position (needle : String) : List String → Option Nat
  | [] => none
  | x :: xs => if x = needle then some 0 else (list_position needle xs).map (· + 1)

/-- The `for neighbor in neighbors` loop of `find_cycle`: recurse (through
`recurse`, the nested `find_cycle` call) into unvisited neighbors; a visited
neighbor on the recursion stack yields the cycle slice of the path from its
first occurrence. -/
def find_cycle_neighbors (recurse : String → DfsState → DfsState × Option (List String))
    (neighbors : List String) (s : DfsState) : DfsState × Option (List String) :=
  match neighbors with
  | [] => (s, none)
  | neighbor :: rest =>
      if neighbor ∉ s.visited then
        match recurse neighbor s with
        | (s2, some cycle) => (s2, some cycle)
        | (s2, none) => find_cycle_neighbors recurse rest s2
      else if neighbor ∈ s.rec_stack then
        match list_position neighbor s.path with
        | some start_idx => (s, some (s.path.drop start_idx))
        | none => find_cycle_neighbors recurse rest s
      else
        find_cycle_neighbors recurse rest s

/-- `CodeQualityAnalyzer::find_cycle`: mark `current` visited, push it on the
path and recursion stack, scan its neighbors; on no cycle, pop the path and
drop `current` from the recursion stack. -/
def find_cycle (fuel : Nat) (graph : List (String × List String)) (current : String)
    (s : DfsState) : DfsState × Option (List String) :=
  match fuel with
  | 0 => (s, none)
  | fuel + 1 =>
      let s1 : DfsState :=
        { visited := current :: s.visited, path := s.path ++ [current],
          rec_stack := current :: s.rec_stack }
      match find_cycle_neighbors (find_cycle fuel graph) (DepGraph.get graph current) s1 with
      | (s2, some cycle) => (s2, some cycle)
      | (s2, none) =>
          ({ visited := s2.visited, path := s2.path.dropLast,
             rec_stack := s2.rec_stack.erase current }, none)

/-- Fuel that strictly exceeds the number of node mentions in the graph, and
hence the real DFS recursion depth. -/
def dfs_fuel (graph : List (String × List String)) : Nat :=
  (graph.map (fun p => p.1 :: p.2)).flatten.length + 1

/-- The `for (file, _) in file_dependencies` loop of
`detect_circular_dependencies`: `visited` and `path` persist across
iterations, `rec_stack` is fresh per call (`&mut HashSet::new()`). -/
def detect_circular_dependencies_go (graph : List (String × List String))
    (entries : List String) (visited : List String) (path : List String) :
    List (List String) :=
  match entries with
  | [] => []
  | file :: rest =>
      if file ∉ visited then
        match find_cycle (dfs_fuel graph) graph file
            { visited := visited, path := path, rec_stack := [] } with
        | (s, some cycle) =>
            cycle :: detect_circular_dependencies_go graph rest s.visited s.path
        | (s, none) => detect_circular_dependencies_go graph rest s.visited s.path
      else
        detect_circular_dependencies_go graph rest visited path

/-- `CodeQualityAnalyzer::detect_circular_dependencies` (cycle lists only;
repository id, language and timestamps are pass-through packaging). -/
def detect_circular_dependencies (graph : List (String × List String)) :
    List (List String) :=
  detect_circular_dependencies_go graph (graph.map (fun p => p.1)) [] []

/-- A graph in which no file lists itself among its own dependencies. -/
def noSelfDependency (graph : List (String × List String)) : Prop :=
  ∀ p ∈ graph, p.1 ∉ p.2

/-! ## Concrete fixtures used by counterexamples and witnesses -/

/-- Fixed envelope metadata for concrete runs (its content is irrelevant to
the projections under test). -/
def testMetadata : EventMetadata :=
  { event_id := "evt-1", correlation_id := "corr-1", causation_id := "corr-1",
    occurred_at := 0, schema_version := 1, user_id := none }

/-- A `CommitAnalyzed` envelope for repository `"r"` with the given commit
timestamp. -/
def testCommitEnvelope (ts : Int) : EventEnvelope :=
  { metadata := testMetadata,
    event := .CommitAnalyzed
      { repository_id := "r", commit_hash := "abc123d", parents := [],
        author := "alice", message := "m", files_changed := [],
        commit_timestamp := ts, timestamp := ts } }

/-- Fixed metadata for a fresh `Repository` fixture. -/
def testRepoMetadata : RepositoryMetadata :=
  { name := "test-repo", description := none, primary_language := none,
    created_at := 0, updated_at := 0, size_bytes := none, commit_count := none,
    custom := [] }

/-- A fresh repository aggregate (`Repository::new`, with the random id and
clock fixed). -/
def testRepo : Repository :=
  { id := "repo-1", remote_url := none, local_path := none, head := none,
    branches := [], metadata := testRepoMetadata, version := 0 }

/-- A transport whose store state counts stored messages: publishing fails as
soon as one message is stored, so the second append of a batch errors. -/
def failingPublish : Nat → Unit → Nat × Except String Unit :=
  fun s _ => if 1 ≤ s then (s, .error "publish failed") else (s + 1, .ok ())

/-- Stream info for the counting transport: the message count is the state. -/
def countingInfo : Nat → Except String Nat := fun s => .ok s

end CimDomainGit

namespace CimDomainGit

/-! # Theorems -/

/-! ## C5 — `CommitHash::new` validation (code bug: no upper length bound) -/

/-- C5: the specification states `CommitHash::new` succeeds only for hex
strings of length at least 7 and at most 64 — matching the constructor's own
documentation ("up to 40 characters for full SHA-1 hashes or 64 characters for
SHA-256 hashes") — but the code never checks an upper bound: a 65-character
hex string is accepted (and lowercased unchanged). -/
theorem c5_commit_hash_accepts_overlong :
    CommitHash.new (String.mk (List.replicate 65 '0')) =
      .ok ⟨String.mk (List.replicate 65 '0')⟩ ∧
    (String.mk (List.replicate 65 '0')).data.length = 65 := by
  decide

/-! ## C3 — projection loop acknowledgment policy (corrected) -/

/-- C3 counterexample: the claim says a message whose `Projection::apply`
fails is not acknowledged, but `process_events` acknowledges every message
unconditionally after the parse/apply match — including one whose apply
failed (parse ok, handled, apply error). -/
theorem c3_apply_failure_still_acked :
    LoopAction.messageAcked ∈ process_message true true false := by
  decide

/-- C3 amended: every delivered message is acknowledged, and the ack is the
last step of the iteration; a message that fails to parse is acknowledged
without any apply; a successful apply saves the new position before the ack;
a failed apply skips the position save but is acknowledged all the same. -/
theorem c3_ack_policy_amended :
    (∀ parse_ok handles apply_ok : Bool,
      (process_message parse_ok handles apply_ok).getLast? = some LoopAction.messageAcked) ∧
    (∀ handles apply_ok : Bool,
      process_message false handles apply_ok = [LoopAction.messageAcked]) ∧
    process_message true true true =
      [LoopAction.applyCalled, LoopAction.positionSaved, LoopAction.messageAcked] ∧
    process_message true true false = [LoopAction.applyCalled, LoopAction.messageAcked] := by
  refine ⟨?_, ?_, rfl, rfl⟩
  · intro p h a; cases p <;> cases h <;> cases a <;> decide
  · intro h a; cases h <;> cases a <;> decide

/-! ## C6 — command dispatcher ack monotonicity (confirmed) -/

/-- C6: for one processing of a single command, the published ack stream is a
prefix of `Received, Processing` followed by exactly one terminal state
(`Completed` or `Failed`), with `Rejected` only ever reached without a
`Processing` having been published; a terminal ack is never followed by any
further ack. -/
theorem c6_ack_trace_valid (deserialize_ok : Bool) (command_type : String)
    (handlers : List HandlerModel) :
    validAckTrace (CommandSubscriber.handle_message deserialize_ok command_type handlers)
      = true := by
  have shapes : ∀ t : List AckStatus,
      (t = [AckStatus.Received, AckStatus.Rejected] ∨
       t = [AckStatus.Received, AckStatus.Processing, AckStatus.Completed] ∨
       t = [AckStatus.Received, AckStatus.Processing, AckStatus.Failed]) →
      validAckTrace t = true := by
    rintro t (rfl | rfl | rfl) <;> decide
  apply shapes
  unfold CommandSubscriber.handle_message
  split
  · exact Or.inl rfl
  · split
    · split
      · exact Or.inr (Or.inl rfl)
      · exact Or.inr (Or.inr rfl)
    · exact Or.inl rfl

/-! ## C2 — repository-stats projection on `CommitAnalyzed` (corrected) -/

/-- C2 counterexample: the claim says `last_commit_time` becomes the maximum
of its previous value and the event's `commit_timestamp`, but the code
overwrites it: applying a commit with timestamp 5 and then one with timestamp
3 leaves `last_commit_time = 3`, not `max 5 3 = 5`. -/
theorem c2_last_commit_time_not_max :
    ((RepositoryStatsProjection.apply (fun _ => none) (testCommitEnvelope 5)) "r").map
        RepositoryStats.last_commit_time = some (some 5) ∧
    ((RepositoryStatsProjection.apply
        (RepositoryStatsProjection.apply (fun _ => none) (testCommitEnvelope 5))
        (testCommitEnvelope 3)) "r").map
        RepositoryStats.last_commit_time = some (some 3) ∧
    some (3 : Int) ≠ some (max 5 3) := by
  refine ⟨by decide, by decide, by decide⟩

/-- C2 amended: for every `CommitAnalyzed` event applied by the
repository-stats projection, the repository's `commit_count` is incremented by
one and `last_commit_time` is set unconditionally to the event's
`commit_timestamp` (it can move backwards when an older commit is applied
later). -/
theorem c2_commit_analyzed_amended (stats : StatsMap) (envelope : EventEnvelope)
    (e : CommitAnalyzedEvt) (h : envelope.event = .CommitAnalyzed e) :
    RepositoryStatsProjection.apply stats envelope envelope.aggregate_id =
      some { (stats envelope.aggregate_id).getD
               { RepositoryStats.default with repository_id := envelope.aggregate_id } with
             commit_count :=
               ((stats envelope.aggregate_id).getD
                 { RepositoryStats.default with
                   repository_id := envelope.aggregate_id }).commit_count + 1,
             last_commit_time := some e.commit_timestamp } := by
  simp only [RepositoryStatsProjection.apply, h, if_pos rfl]

/-- C2 amended, witnessed at a concrete event: applying one `CommitAnalyzed`
with timestamp 5 to the empty projection yields count 1 and time 5. -/
theorem c2_commit_analyzed_amended_witness :
    RepositoryStatsProjection.apply (fun _ => none) (testCommitEnvelope 5)
        ((testCommitEnvelope 5).aggregate_id) =
      some { RepositoryStats.default with
             repository_id := "r", commit_count := 1, last_commit_time := some 5 } := by
  have h := c2_commit_analyzed_amended (fun _ => none) (testCommitEnvelope 5) _ rfl
  simpa using h

/-! ## C9 — risk bucketing monotone in churn rate (confirmed) -/

/-- C9: with complexity and lines of code held fixed, the risk level computed
by `calculate_risk_level` is monotone in `churn_rate` under the order
`Low < Medium < High < Critical`. -/
theorem c9_risk_monotone (self : CodeQualityAnalyzer) (complexity : Option Nat)
    (lines_of_code : Nat) (r₁ r₂ : ℚ) (h : r₁ ≤ r₂) :
    (self.calculate_risk_level r₁ complexity lines_of_code).rank ≤
      (self.calculate_risk_level r₂ complexity lines_of_code).rank := by
  simp only [CodeQualityAnalyzer.calculate_risk_level]
  split_ifs <;> first | decide | (exfalso; linarith)

/-- C9 witnessed at concrete churn rates 0 ≤ 1 with default thresholds. -/
theorem c9_risk_monotone_witness :
    (CodeQualityAnalyzer.new.calculate_risk_level 0 none 0).rank ≤
      (CodeQualityAnalyzer.new.calculate_risk_level 1 none 0).rank ∧
    (0 : ℚ) ≤ 1 := by
  exact ⟨c9_risk_monotone CodeQualityAnalyzer.new none 0 0 1 (by norm_num), by norm_num⟩

/-! ## C10 — `Repository::clone_repository` (confirmed) -/

/-- C10: calling `clone_repository` on an aggregate whose `local_path` is
already set returns an error and leaves the whole aggregate unchanged; when
`local_path` is unset it emits exactly one `RepositoryCloned` event, applies
it (setting remote url, local path and `updated_at`), and increments `version`
by one. -/
theorem c10_clone_repository (self : Repository) (remote_url local_path : String)
    (now : Int) :
    (self.local_path.isSome →
      self.clone_repository remote_url local_path now =
        (self, .error (.GitOperationFailed "Repository already cloned"))) ∧
    (self.local_path = none →
      self.clone_repository remote_url local_path now =
        ({ self with
           remote_url := some remote_url,
           local_path := some local_path,
           metadata := { self.metadata with updated_at := now },
           version := self.version + 1 },
         .ok [GitDomainEvent.RepositoryCloned
           { repository_id := self.id, remote_url := remote_url,
             local_path := local_path, timestamp := now }])) := by
  constructor
  · intro h
    simp [Repository.clone_repository, h]
  · intro h
    simp [Repository.clone_repository, Repository.apply_event, h]

/-- C10 witnessed on a fresh repository and on an already-cloned one. -/
theorem c10_clone_repository_witness :
    testRepo.clone_repository "https://github.com/test/repo.git" "/tmp/test-repo" 7 =
      ({ testRepo with
         remote_url := some "https://github.com/test/repo.git",
         local_path := some "/tmp/test-repo",
         metadata := { testRepoMetadata with updated_at := 7 },
         version := 1 },
       .ok [GitDomainEvent.RepositoryCloned
         { repository_id := "repo-1", remote_url := "https://github.com/test/repo.git",
           local_path := "/tmp/test-repo", timestamp := 7 }]) ∧
    ({ testRepo with local_path := some "/tmp/x" } : Repository).clone_repository
        "https://github.com/test/repo.git" "/tmp/y" 9 =
      ({ testRepo with local_path := some "/tmp/x" },
       .error (.GitOperationFailed "Repository already cloned")) := by
  constructor
  · exact (c10_clone_repository testRepo "https://github.com/test/repo.git"
      "/tmp/test-repo" 7).2 rfl
  · exact (c10_clone_repository { testRepo with local_path := some "/tmp/x" }
      "https://github.com/test/repo.git" "/tmp/y" 9).1 rfl

/-! ## C1 — subject mapper (corrected: not injective) -/

/-- Any name mapped to a subject is one of the enumerated event names. -/
theorem event_subject_some_mem {n : String} {s : GitSubject}
    (h : SubjectMapper.event_subject n = some s) : n ∈ knownEventNames := by
  unfold SubjectMapper.event_subject at h
  by_cases h1 : n = "RepositoryCloned"
  · subst h1; decide
  rw [if_neg h1] at h
  by_cases h2 : n = "RepositoryDeleted"
  · subst h2; decide
  rw [if_neg h2] at h
  by_cases h3 : n = "RepositoryAnalyzed"
  · subst h3; decide
  rw [if_neg h3] at h
  by_cases h4 : n = "CommitAnalyzed"
  · subst h4; decide
  rw [if_neg h4] at h
  by_cases h5 : n = "BranchCreated"
  · subst h5; decide
  rw [if_neg h5] at h
  by_cases h6 : n = "BranchDeleted"
  · subst h6; decide
  rw [if_neg h6] at h
  by_cases h7 : n = "BranchMerged"
  · subst h7; decide
  rw [if_neg h7] at h
  by_cases h8 : n = "TagCreated"
  · subst h8; decide
  rw [if_neg h8] at h
  by_cases h9 : n = "TagDeleted"
  · subst h9; decide
  rw [if_neg h9] at h
  by_cases h10 : n = "RemoteAdded"
  · subst h10; decide
  rw [if_neg h10] at h
  by_cases h11 : n = "RemoteRemoved"
  · subst h11; decide
  rw [if_neg h11] at h
  by_cases h12 : n = "RemoteFetched"
  · subst h12; decide
  rw [if_neg h12] at h
  by_cases h13 : n = "RemotePushed"
  · subst h13; decide
  rw [if_neg h13] at h
  by_cases h14 : n = "FileAnalyzed"
  · subst h14; decide
  rw [if_neg h14] at h
  by_cases h15 : n = "MergeDetected"
  · subst h15; decide
  rw [if_neg h15] at h
  exact Option.noConfusion h

/-- A name outside the enumeration is mapped to none. -/
theorem event_subject_unknown_none {n : String} (hn : n ∉ knownEventNames) :
    SubjectMapper.event_subject n = none := by
  unfold SubjectMapper.event_subject
  iterate 15 rw [if_neg (fun h => hn (by subst h; decide))]

/-- Every enumerated name yields some subject. -/
theorem event_subject_known_isSome :
    ∀ n ∈ knownEventNames, (SubjectMapper.event_subject n).isSome := by
  decide

/-- Every enumerated name yields the event subject of its action, whose
rendered form is `git.event.<aggregate>.<past_action>`. -/
theorem event_subject_known_format : ∀ m ∈ knownEventNames, ∃ a : EventAction,
    SubjectMapper.event_subject m = some (GitSubject.event a) ∧
    (GitSubject.event a).display =
      "git.event." ++ a.aggregate.display ++ "." ++ a.as_str := by
  decide

/-- Over the enumerated names, equal subject strings force equal names except
for the colliding pair. -/
theorem event_subject_injective_except : ∀ m₁ ∈ knownEventNames, ∀ m₂ ∈ knownEventNames,
    (SubjectMapper.event_subject m₁).map GitSubject.display =
      (SubjectMapper.event_subject m₂).map GitSubject.display →
    m₁ = m₂ ∨ (m₁ ∈ collidingEventNames ∧ m₂ ∈ collidingEventNames) := by
  decide

/-- C1 counterexample: `event_subject` is not injective on known names — the
distinct event names `CommitAnalyzed` and `FileAnalyzed` both map to the
subject `git.event.commit.analyzed`. -/
theorem c1_event_subject_not_injective :
    ("CommitAnalyzed" : String) ≠ "FileAnalyzed" ∧
    (SubjectMapper.event_subject "CommitAnalyzed").map GitSubject.display =
      (SubjectMapper.event_subject "FileAnalyzed").map GitSubject.display ∧
    (SubjectMapper.event_subject "CommitAnalyzed").map GitSubject.display =
      some "git.event.commit.analyzed" := by
  refine ⟨by decide, by decide, by decide⟩

/-- C1 amended: every enumerated event name is mapped to a subject whose
string form is `git.event.<aggregate>.<past_action>`; every name outside the
enumeration returns absence; and the mapping is injective on known names
except that `CommitAnalyzed` and `FileAnalyzed` collide on
`git.event.commit.analyzed`. -/
theorem c1_event_subject_amended :
    (∀ n ∈ knownEventNames, (SubjectMapper.event_subject n).isSome) ∧
    (∀ n, n ∉ knownEventNames → SubjectMapper.event_subject n = none) ∧
    (∀ n s, SubjectMapper.event_subject n = some s →
      ∃ a : EventAction, s = GitSubject.event a ∧
        s.display = "git.event." ++ a.aggregate.display ++ "." ++ a.as_str) ∧
    (∀ n₁ n₂ s₁ s₂, SubjectMapper.event_subject n₁ = some s₁ →
      SubjectMapper.event_subject n₂ = some s₂ → s₁.display = s₂.display →
      n₁ = n₂ ∨ (n₁ ∈ collidingEventNames ∧ n₂ ∈ collidingEventNames)) := by
  refine ⟨event_subject_known_isSome, fun n hn => event_subject_unknown_none hn, ?_, ?_⟩
  · intro n s h
    obtain ⟨a, ha, hd⟩ := event_subject_known_format n (event_subject_some_mem h)
    rw [h] at ha
    exact ⟨a, Option.some_injective _ ha, by rw [Option.some_injective _ ha]; exact hd⟩
  · intro n₁ n₂ s₁ s₂ h₁ h₂ hdisp
    refine event_subject_injective_except n₁ (event_subject_some_mem h₁)
      n₂ (event_subject_some_mem h₂) ?_
    rw [h₁, h₂, Option.map_some', Option.map_some', hdisp]

/-- C1 amended, witnessed: a known name maps to a subject, an unknown name
maps to none, and the colliding pair is classified as such. -/
theorem c1_event_subject_amended_witness :
    (SubjectMapper.event_subject "RepositoryCloned").isSome ∧
    SubjectMapper.event_subject "NotAGitEvent" = none ∧
    (("CommitAnalyzed" : String) = "FileAnalyzed" ∨
      ("CommitAnalyzed" ∈ collidingEventNames ∧ "FileAnalyzed" ∈ collidingEventNames)) := by
  have h := c1_event_subject_amended
  refine ⟨h.1 "RepositoryCloned" (by decide), h.2.1 "NotAGitEvent" (by decide), ?_⟩
  exact h.2.2.2 "CommitAnalyzed" "FileAnalyzed" _ _ rfl rfl (by decide)

/-! ## C4 — `append_batch` partial failure (corrected) -/

/-- The accumulator loop of `append_batch` computes the natural serial
recursion, prepending the sequences accumulated so far on success and
discarding them on error. -/
theorem append_batch_go_eq_spec {σ Env Err : Type}
    (publish : σ → Env → σ × Except Err Unit) (infoMessages : σ → Except Err Nat) :
    ∀ (envelopes : List Env) (s : σ) (sequences : List Nat),
      EventStore.append_batch_go publish infoMessages s envelopes sequences =
        (match append_serial_spec publish infoMessages s envelopes with
         | (s', .ok seqs) => (s', .ok (sequences.reverse ++ seqs))
         | (s', .error e) => (s', .error e)) := by
  intro envelopes
  induction envelopes with
  | nil =>
      intro s sequences
      simp [EventStore.append_batch_go, append_serial_spec]
  | cons envelope rest ih =>
      intro s sequences
      rw [EventStore.append_batch_go, append_serial_spec]
      rcases h : EventStore.append publish infoMessages s envelope with ⟨s', r⟩
      rcases r with e | seq
      · rfl
      · simp only [ih s' (seq :: sequences)]
        rcases hs : append_serial_spec publish infoMessages s' rest with ⟨s'', r'⟩
        rcases r' with e' | seqs <;> simp

/-- On an error result, the serial recursion decomposes the batch into a
successfully appended prefix, the failing envelope, and an unattempted
suffix. -/
theorem append_serial_spec_error {σ Env Err : Type}
    (publish : σ → Env → σ × Except Err Unit) (infoMessages : σ → Except Err Nat) :
    ∀ (envelopes : List Env) (s s' : σ) (err : Err),
      append_serial_spec publish infoMessages s envelopes = (s', .error err) →
      ∃ pre envelope post t seqs,
        envelopes = pre ++ envelope :: post ∧
        append_serial_spec publish infoMessages s pre = (t, .ok seqs) ∧
        EventStore.append publish infoMessages t envelope = (s', .error err) := by
  intro envelopes
  induction envelopes with
  | nil =>
      intro s s' err h
      rw [append_serial_spec] at h
      exact absurd h (by simp)
  | cons envelope rest ih =>
      intro s s' err h
      rw [append_serial_spec] at h
      rcases ha : EventStore.append publish infoMessages s envelope with ⟨s1, r⟩
      rw [ha] at h
      rcases r with e | seq
      · simp only [] at h
        injection h with h1 h2
        subst h1
        injection h2 with h3
        subst h3
        refine ⟨[], envelope, rest, s, [], by simp, by rw [append_serial_spec], ?_⟩
        rw [ha]
      · simp only [] at h
        rcases hs : append_serial_spec publish infoMessages s1 rest with ⟨s2, r'⟩
        rw [hs] at h
        rcases r' with e' | seqs
        · injection h with h1 h2
          subst h1
          injection h2 with h3
          subst h3
          obtain ⟨pre, env2, post, t, seqs2, hsplit, hpre, hfail⟩ := ih s1 s2 e' hs
          refine ⟨envelope :: pre, env2, post, t, seq :: seqs2, by rw [hsplit]; rfl, ?_, hfail⟩
          rw [append_serial_spec, ha]
          simp only [hpre]
        · exact absurd h (by simp)

/-- C4 counterexample: the claim says that when an append fails partway the
caller observes the sequences written for the successful prefix, but
`append_batch` propagates the error with `?`, dropping the accumulated
sequence list: with a transport that accepts one message (sequence 1) and then
fails, the batch of two returns only the error, not `[1]`. -/
theorem c4_partial_failure_hides_prefix :
    EventStore.append failingPublish countingInfo 0 () = (1, .ok 1) ∧
    EventStore.append_batch failingPublish countingInfo 0 [(), ()] =
      (1, .error "publish failed") := by
  exact ⟨rfl, rfl⟩

/-- C4 amended: `append_batch` appends serially (it equals the natural serial
recursion); when an append fails partway, the successfully appended prefix
remains written in the store state, but the call returns only the error of the
first failing append — the prefix's sequence numbers are not returned to the
caller. -/
theorem c4_append_batch_amended {σ Env Err : Type}
    (publish : σ → Env → σ × Except Err Unit) (infoMessages : σ → Except Err Nat)
    (s : σ) (envelopes : List Env) :
    EventStore.append_batch publish infoMessages s envelopes =
      append_serial_spec publish infoMessages s envelopes ∧
    (∀ s' err,
      EventStore.append_batch publish infoMessages s envelopes = (s', Except.error err) →
      ∃ pre envelope post t seqs,
        envelopes = pre ++ envelope :: post ∧
        append_serial_spec publish infoMessages s pre = (t, Except.ok seqs) ∧
        EventStore.append publish infoMessages t envelope = (s', Except.error err)) := by
  have heq : EventStore.append_batch publish infoMessages s envelopes =
      append_serial_spec publish infoMessages s envelopes := by
    rw [EventStore.append_batch, append_batch_go_eq_spec]
    rcases hs : append_serial_spec publish infoMessages s envelopes with ⟨s', r⟩
    rcases r with e | seqs <;> simp
  refine ⟨heq, fun s' err h => ?_⟩
  rw [heq] at h
  exact append_serial_spec_error publish infoMessages envelopes s s' err h

/-- C4 amended, witnessed on the counting transport: the two-element batch
fails on the second append, and the decomposition exhibits the one-element
successful prefix. -/
theorem c4_append_batch_amended_witness :
    ∃ pre envelope post t seqs,
      ([(), ()] : List Unit) = pre ++ envelope :: post ∧
      append_serial_spec failingPublish countingInfo 0 pre = (t, Except.ok seqs) ∧
      EventStore.append failingPublish countingInfo t envelope =
        (1, Except.error "publish failed") := by
  exact (c4_append_batch_amended failingPublish countingInfo 0 [(), ()]).2
    1 "publish failed" rfl

/-! ## C7 — code ownership (corrected: tie-break is not lexicographic) -/

/-- Folding `max_by_key_step` from a `some` accumulator yields an element of
the list or the accumulator, at least as large as both the accumulator and
every list element. -/
theorem max_by_key_foldl_some :
    ∀ (l : List (String × Nat)) (q r : String × Nat),
      l.foldl max_by_key_step (some q) = some r →
      (r = q ∨ r ∈ l) ∧ q.2 ≤ r.2 ∧ ∀ p ∈ l, p.2 ≤ r.2 := by
  intro l
  induction l with
  | nil =>
      intro q r h
      simp only [List.foldl] at h
      injection h with h1
      subst h1
      exact ⟨Or.inl rfl, le_refl _, by simp⟩
  | cons p rest ih =>
      intro q r h
      simp only [List.foldl, max_by_key_step] at h
      by_cases hc : q.2 ≤ p.2
      · rw [if_pos hc] at h
        obtain ⟨hmem, hge, hall⟩ := ih p r h
        refine ⟨?_, hc.trans hge, ?_⟩
        · rcases hmem with rfl | hm
          · exact Or.inr (List.mem_cons_self _ _)
          · exact Or.inr (List.mem_cons_of_mem _ hm)
        · intro x hx
          rcases List.mem_cons.1 hx with rfl | hx'
          · exact hge
          · exact hall x hx'
      · rw [if_neg hc] at h
        obtain ⟨hmem, hge, hall⟩ := ih q r h
        refine ⟨?_, hge, ?_⟩
        · rcases hmem with rfl | hm
          · exact Or.inl rfl
          · exact Or.inr (List.mem_cons_of_mem _ hm)
        · intro x hx
          rcases List.mem_cons.1 hx with rfl | hx'
          · exact le_trans (le_of_not_le hc) hge
          · exact hall x hx'

/-- `max_by_key` returns an element of the list whose count is maximal. -/
theorem max_by_key_count_spec {l : List (String × Nat)} {r : String × Nat}
    (h : max_by_key_count l = some r) : r ∈ l ∧ ∀ p ∈ l, p.2 ≤ r.2 := by
  rcases l with _ | ⟨p, rest⟩
  · exact absurd h (by simp [max_by_key_count])
  · unfold max_by_key_count at h
    simp only [List.foldl, max_by_key_step] at h
    obtain ⟨hmem, hge, hall⟩ := max_by_key_foldl_some rest p r h
    refine ⟨?_, ?_⟩
    · rcases hmem with rfl | hm
      · exact List.mem_cons_self _ _
      · exact List.mem_cons_of_mem _ hm
    · intro x hx
      rcases List.mem_cons.1 hx with rfl | hx'
      · exact hge
      · exact hall x hx'

/-- C7 counterexample: the claim says ties in commit counts are broken by
lexicographic order on author identity, making the result deterministic. With
authors `a` and `b` tied at one commit each, the code (Rust
`Iterator::max_by_key`, which keeps the last maximal element of the map's
iteration) picks `b` when the iteration order is `a` then `b` — not the
lexicographic minimum `a` — and picks `a` for the reversed iteration order, so
the result also depends on the unspecified `HashMap` iteration order. -/
theorem c7_primary_owner_not_lexicographic :
    (calculate_ownership_file "file.rs" [("a", 1), ("b", 1)] 2).map
        CodeOwnershipCalculated.primary_owner = some "b" ∧
    (calculate_ownership_file "file.rs" [("b", 1), ("a", 1)] 2).map
        CodeOwnershipCalculated.primary_owner = some "a" ∧
    ("b" : String) ≠ "a" := by
  refine ⟨rfl, rfl, by decide⟩

/-- C7 amended: for every file with at least one commit, `primary_owner` is an
author attaining the maximal commit count — with ties resolved by the map's
unspecified iteration order (the last maximal entry), not lexicographically —
`ownership_percentage` equals `primary_count / total_commits`, and the
contributors exclude the primary owner and are listed in descending share. -/
theorem c7_ownership_amended (path : String) (author_counts : List (String × Nat))
    (total_commits : Nat) (result : CodeOwnershipCalculated)
    (h : calculate_ownership_file path author_counts total_commits = some result) :
    (∃ primary_count,
        (result.primary_owner, primary_count) ∈ author_counts ∧
        (∀ p ∈ author_counts, p.2 ≤ primary_count) ∧
        result.ownership_percentage = (primary_count : ℚ) / (total_commits : ℚ)) ∧
    List.Pairwise (fun x y : String × ℚ => y.2 ≤ x.2) result.contributors ∧
    (∀ p ∈ result.contributors, p.1 ≠ result.primary_owner) ∧
    0 < total_commits := by
  unfold calculate_ownership_file at h
  split_ifs at h with h0
  rcases hmax : max_by_key_count author_counts with _ | ⟨po, pc⟩
  · rw [hmax] at h; exact Option.noConfusion h
  · rw [hmax] at h
    simp only [] at h
    cases h
    obtain ⟨hmem, hall⟩ := max_by_key_count_spec hmax
    refine ⟨⟨pc, hmem, hall, rfl⟩, ?_, ?_, Nat.pos_of_ne_zero h0⟩
    · have hs := @List.sorted_mergeSort (String × ℚ)
        (fun a b : String × ℚ => decide (b.2 ≤ a.2))
        (fun a b c hab hbc => by
          simp only [decide_eq_true_eq] at *
          exact le_trans hbc hab)
        (fun a b => by
          simp only [Bool.or_eq_true, decide_eq_true_eq]
          exact le_total b.2 a.2)
        ((author_counts.filter (fun p => p.1 ≠ po)).map
          (fun p => (p.1, (p.2 : ℚ) / (total_commits : ℚ))))
      exact hs.imp (fun hab => by simpa using hab)
    · intro p hp
      have hp' := (List.mem_mergeSort).1 hp
      obtain ⟨x, hx, rfl⟩ := List.mem_map.1 hp'
      have := List.mem_filter.1 hx
      simpa using this.2

/-- C7 amended, witnessed on a file with three commits, two by `a` and one by
`b`: the primary owner attains the maximal count and contributors exclude it. -/
theorem c7_ownership_amended_witness :
    ∃ r, calculate_ownership_file "file.rs" [("a", 2), ("b", 1)] 3 = some r ∧
      (∃ primary_count,
          (r.primary_owner, primary_count) ∈ ([("a", 2), ("b", 1)] : List (String × Nat)) ∧
          (∀ p ∈ ([("a", 2), ("b", 1)] : List (String × Nat)), p.2 ≤ primary_count) ∧
          r.ownership_percentage = (primary_count : ℚ) / ((3 : Nat) : ℚ)) ∧
      (∀ p ∈ r.contributors, p.1 ≠ r.primary_owner) := by
  have hsome : (calculate_ownership_file "file.rs" [("a", 2), ("b", 1)] 3).isSome := by
    decide
  rcases hr : calculate_ownership_file "file.rs" [("a", 2), ("b", 1)] 3 with _ | r
  · rw [hr] at hsome; exact absurd hsome (by simp)
  · obtain ⟨⟨pc, hmem, hall, hperc⟩, hsort, hexcl, hpos⟩ :=
      c7_ownership_amended "file.rs" [("a", 2), ("b", 1)] 3 r hr
    exact ⟨r, rfl, ⟨pc, hmem, hall, hperc⟩, hexcl⟩

/-! ## C8 — circular-dependency cycle lengths (corrected: self-loops) -/

theorem list_position_lt {needle : String} :
    ∀ {l : List String} {i : Nat}, list_position needle l = some i → i < l.length := by
  intro l
  induction l with
  | nil => intro i h; exact Option.noConfusion h
  | cons x xs ih =>
      intro i h
      rw [list_position] at h
      split_ifs at h with hx
      · injection h with h1
        simp only [List.length_cons]
        omega
      · rcases hmap : list_position needle xs with _ | j
        · rw [hmap] at h; exact Option.noConfusion h
        · rw [hmap, Option.map_some'] at h
          injection h with h1
          have := ih hmap
          simp only [List.length_cons]
          omega

theorem list_position_getElem {needle : String} :
    ∀ {l : List String} {i : Nat}, list_position needle l = some i → l[i]? = some needle := by
  intro l
  induction l with
  | nil => intro i h; exact Option.noConfusion h
  | cons x xs ih =>
      intro i h
      rw [list_position] at h
      split_ifs at h with hx
      · injection h with h1
        subst hx
        rw [← h1]
        simp
      · rcases hmap : list_position needle xs with _ | j
        · rw [hmap] at h; exact Option.noConfusion h
        · rw [hmap, Option.map_some'] at h
          injection h with h1
          rw [← h1]
          simpa using ih hmap

theorem noSelf_not_mem_get {graph : List (String × List String)}
    (hns : noSelfDependency graph) (x : String) : x ∉ DepGraph.get graph x := by
  unfold DepGraph.get
  rcases hf : graph.find? (fun p => p.1 = x) with _ | p
  · rw [hf]
    simp
  · rw [hf]
    have hpred := List.find?_some hf
    have hmem := List.mem_of_find?_eq_some hf
    have hx : p.1 = x := by simpa using hpred
    rw [← hx]
    exact hns p hmem

theorem find_cycle_neighbors_none_path
    (recurse : String → DfsState → DfsState × Option (List String))
    (hrec : ∀ n s s2, recurse n s = (s2, none) → s2.path = s.path) :
    ∀ (ns : List String) (s s2 : DfsState),
      find_cycle_neighbors recurse ns s = (s2, none) → s2.path = s.path := by
  intro ns
  induction ns with
  | nil =>
      intro s s2 h
      rw [find_cycle_neighbors] at h
      injection h with h1 h2
      rw [h1]
  | cons neighbor rest ih =>
      intro s s2 h
      rw [find_cycle_neighbors] at h
      by_cases hv : neighbor ∉ s.visited
      · rw [if_pos hv] at h
        rcases hcall : recurse neighbor s with ⟨t, o⟩
        rw [hcall] at h
        rcases o with _ | c
        · try simp only [] at h
          exact (ih t s2 h).trans (hrec neighbor s t hcall)
        · try simp only [] at h
          injection h with h1 h2
          exact Option.noConfusion h2
      · rw [if_neg hv] at h
        by_cases hr : neighbor ∈ s.rec_stack
        · rw [if_pos hr] at h
          rcases hpos : list_position neighbor s.path with _ | i
          · rw [hpos] at h
            exact ih s s2 h
          · rw [hpos] at h
            try simp only [] at h
            injection h with h1 h2
            exact Option.noConfusion h2
        · rw [if_neg hr] at h
          exact ih s s2 h

theorem find_cycle_none_path :
    ∀ (fuel : Nat) (graph : List (String × List String)) (current : String)
      (s s2 : DfsState), find_cycle fuel graph current s = (s2, none) → s2.path = s.path := by
  intro fuel
  induction fuel with
  | zero =>
      intro graph current s s2 h
      rw [find_cycle] at h
      injection h with h1 h2
      rw [h1]
  | succ f ih =>
      intro graph current s s2 h
      rw [find_cycle] at h
      try simp only [] at h
      rcases hn : find_cycle_neighbors (find_cycle f graph) (DepGraph.get graph current)
          { visited := current :: s.visited, path := s.path ++ [current],
            rec_stack := current :: s.rec_stack } with ⟨t, o⟩
      rw [hn] at h
      rcases o with _ | c
      · try simp only [] at h
        injection h with h1 h2
        have hpath := find_cycle_neighbors_none_path (find_cycle f graph)
          (fun n s s2 => ih graph n s s2) _ _ _ hn
        rw [← h1]
        simp only [hpath]
        exact List.dropLast_concat
      · try simp only [] at h
        injection h with h1 h2
        exact Option.noConfusion h2

theorem find_cycle_neighbors_some_ne_nil
    (recurse : String → DfsState → DfsState × Option (List String))
    (hrec : ∀ n s s2 c, recurse n s = (s2, some c) → c ≠ []) :
    ∀ (ns : List String) (s s2 : DfsState) (c : List String),
      find_cycle_neighbors recurse ns s = (s2, some c) → c ≠ [] := by
  intro ns
  induction ns with
  | nil =>
      intro s s2 c h
      rw [find_cycle_neighbors] at h
      injection h with h1 h2
      exact Option.noConfusion h2
  | cons neighbor rest ih =>
      intro s s2 c h
      rw [find_cycle_neighbors] at h
      by_cases hv : neighbor ∉ s.visited
      · rw [if_pos hv] at h
        rcases hcall : recurse neighbor s with ⟨t, o⟩
        rw [hcall] at h
        rcases o with _ | c'
        · try simp only [] at h
          exact ih t s2 c h
        · try simp only [] at h
          injection h with h1 h2
          injection h2 with h3
          subst h3
          exact hrec neighbor s t _ hcall
      · rw [if_neg hv] at h
        by_cases hr : neighbor ∈ s.rec_stack
        · rw [if_pos hr] at h
          rcases hpos : list_position neighbor s.path with _ | i
          · rw [hpos] at h
            exact ih s s2 c h
          · rw [hpos] at h
            try simp only [] at h
            injection h with h1 h2
            injection h2 with h3
            subst h3
            have hlt := list_position_lt hpos
            intro hnil
            rw [List.drop_eq_nil_iff] at hnil
            omega
        · rw [if_neg hr] at h
          exact ih s s2 c h

theorem find_cycle_some_ne_nil :
    ∀ (fuel : Nat) (graph : List (String × List String)) (current : String)
      (s s2 : DfsState) (c : List String),
      find_cycle fuel graph current s = (s2, some c) → c ≠ [] := by
  intro fuel
  induction fuel with
  | zero =>
      intro graph current s s2 c h
      rw [find_cycle] at h
      injection h with h1 h2
      exact Option.noConfusion h2
  | succ f ih =>
      intro graph current s s2 c h
      rw [find_cycle] at h
      try simp only [] at h
      rcases hn : find_cycle_neighbors (find_cycle f graph) (DepGraph.get graph current)
          { visited := current :: s.visited, path := s.path ++ [current],
            rec_stack := current :: s.rec_stack } with ⟨t, o⟩
      rw [hn] at h
      rcases o with _ | c'
      · try simp only [] at h
        injection h with h1 h2
        exact Option.noConfusion h2
      · try simp only [] at h
        injection h with h1 h2
        injection h2 with h3
        subst h3
        exact find_cycle_neighbors_some_ne_nil (find_cycle f graph)
          (fun n s s2 c => ih graph n s s2 c) _ _ _ _ hn

theorem find_cycle_neighbors_some_two
    (graph : List (String × List String)) (current : String)
    (recurse : String → DfsState → DfsState × Option (List String))
    (hns : noSelfDependency graph)
    (hrec2 : ∀ n s s2 c, recurse n s = (s2, some c) → 2 ≤ c.length)
    (hrecnone : ∀ n s s2, recurse n s = (s2, none) → s2.path = s.path) :
    ∀ (ns : List String) (s s2 : DfsState) (c : List String),
      (∀ n ∈ ns, n ∈ DepGraph.get graph current) →
      (∃ q, s.path = q ++ [current]) →
      find_cycle_neighbors recurse ns s = (s2, some c) → 2 ≤ c.length := by
  intro ns
  induction ns with
  | nil =>
      intro s s2 c hsub hinv h
      rw [find_cycle_neighbors] at h
      injection h with h1 h2
      exact Option.noConfusion h2
  | cons neighbor rest ih =>
      intro s s2 c hsub hinv h
      rw [find_cycle_neighbors] at h
      by_cases hv : neighbor ∉ s.visited
      · rw [if_pos hv] at h
        rcases hcall : recurse neighbor s with ⟨t, o⟩
        rw [hcall] at h
        rcases o with _ | c'
        · try simp only [] at h
          refine ih t s2 c (fun n hn => hsub n (List.mem_cons_of_mem _ hn)) ?_ h
          obtain ⟨q, hq⟩ := hinv
          exact ⟨q, by rw [hrecnone neighbor s t hcall, hq]⟩
        · try simp only [] at h
          injection h with h1 h2
          injection h2 with h3
          subst h3
          exact hrec2 neighbor s t _ hcall
      · rw [if_neg hv] at h
        by_cases hr : neighbor ∈ s.rec_stack
        · rw [if_pos hr] at h
          rcases hpos : list_position neighbor s.path with _ | i
          · rw [hpos] at h
            exact ih s s2 c (fun n hn => hsub n (List.mem_cons_of_mem _ hn)) hinv h
          · rw [hpos] at h
            try simp only [] at h
            injection h with h1 h2
            injection h2 with h3
            subst h3
            obtain ⟨q, hq⟩ := hinv
            have hlt := list_position_lt hpos
            have hget := list_position_getElem hpos
            have hne : neighbor ≠ current := by
              intro hEq
              subst hEq
              exact noSelf_not_mem_get hns neighbor (hsub neighbor (List.mem_cons_self _ _))
            have hiq : i ≠ q.length := by
              intro hEq
              rw [hq, hEq] at hget
              rw [List.getElem?_append_right (le_refl q.length)] at hget
              simp at hget
              exact hne hget.symm
            rw [List.length_drop]
            rw [hq] at hlt ⊢
            simp only [List.length_append, List.length_singleton] at hlt ⊢
            omega
        · rw [if_neg hr] at h
          exact ih s s2 c (fun n hn => hsub n (List.mem_cons_of_mem _ hn)) hinv h

theorem find_cycle_some_two :
    ∀ (fuel : Nat) (graph : List (String × List String)) (current : String)
      (s s2 : DfsState) (c : List String), noSelfDependency graph →
      find_cycle fuel graph current s = (s2, some c) → 2 ≤ c.length := by
  intro fuel
  induction fuel with
  | zero =>
      intro graph current s s2 c hns h
      rw [find_cycle] at h
      injection h with h1 h2
      exact Option.noConfusion h2
  | succ f ih =>
      intro graph current s s2 c hns h
      rw [find_cycle] at h
      try simp only [] at h
      rcases hn : find_cycle_neighbors (find_cycle f graph) (DepGraph.get graph current)
          { visited := current :: s.visited, path := s.path ++ [current],
            rec_stack := current :: s.rec_stack } with ⟨t, o⟩
      rw [hn] at h
      rcases o with _ | c'
      · try simp only [] at h
        injection h with h1 h2
        exact Option.noConfusion h2
      · try simp only [] at h
        injection h with h1 h2
        injection h2 with h3
        subst h3
        exact find_cycle_neighbors_some_two graph current (find_cycle f graph) hns
          (fun n s s2 c => ih graph n s s2 c hns)
          (fun n s s2 => find_cycle_none_path f graph n s s2)
          _ _ _ _ (fun n hn => hn) ⟨s.path, rfl⟩ hn

theorem detect_go_cycles_from_find :
    ∀ (graph : List (String × List String)) (entries : List String)
      (visited path : List String) (c : List String),
      c ∈ detect_circular_dependencies_go graph entries visited path →
      ∃ fuel current s s2, find_cycle fuel graph current s = (s2, some c) := by
  intro graph entries
  induction entries with
  | nil =>
      intro visited path c hc
      rw [detect_circular_dependencies_go] at hc
      exact absurd hc (List.not_mem_nil c)
  | cons file rest ih =>
      intro visited path c hc
      rw [detect_circular_dependencies_go] at hc
      by_cases hv : file ∉ visited
      · rw [if_pos hv] at hc
        rcases hf : find_cycle (dfs_fuel graph) graph file
            { visited := visited, path := path, rec_stack := [] } with ⟨t, o⟩
        rw [hf] at hc
        rcases o with _ | cycle
        · try simp only [] at hc
          exact ih t.visited t.path c hc
        · try simp only [] at hc
          rcases List.mem_cons.1 hc with rfl | hc'
          · exact ⟨dfs_fuel graph, file, _, t, hf⟩
          · exact ih t.visited t.path c hc'
      · rw [if_neg hv] at hc
        exact ih visited path c hc

/-- C8 amended: every cycle reported by `detect_circular_dependencies` is
nonempty, and on graphs where no file depends on itself every reported cycle
has length at least 2; a self-dependency produces a reported cycle of length
1. Proved for every fuel value of the embedded DFS. -/
theorem c8_cycles_amended (graph : List (String × List String)) (cycle : List String)
    (h : cycle ∈ detect_circular_dependencies graph) :
    cycle ≠ [] ∧ (noSelfDependency graph → 2 ≤ cycle.length) := by
  rw [detect_circular_dependencies] at h
  obtain ⟨fuel, current, s, s2, hf⟩ :=
    detect_go_cycles_from_find graph (graph.map (fun p => p.1)) [] [] cycle h
  exact ⟨find_cycle_some_ne_nil fuel graph current s s2 cycle hf,
    fun hns => find_cycle_some_two fuel graph current s s2 cycle hns hf⟩

/-- C8 counterexample: on the one-file graph whose file depends on itself,
the DFS reports the cycle `["a"]` of length 1, contradicting the claim that
every reported cycle contains at least two files. -/
theorem c8_self_loop_cycle_length_one :
    detect_circular_dependencies [("a", ["a"])] = [["a"]] ∧
    (["a"] : List String).length = 1 := by
  exact ⟨by decide, rfl⟩

/-- C8 amended, witnessed on the two-file cycle `a → b → a`: the reported
cycle is nonempty and has length at least 2. -/
theorem c8_cycles_amended_witness :
    ["a", "b"] ∈ detect_circular_dependencies [("a", ["b"]), ("b", ["a"])] ∧
    (["a", "b"] : List String) ≠ [] ∧ 2 ≤ (["a", "b"] : List String).length := by
  have h := c8_cycles_amended [("a", ["b"]), ("b", ["a"])] ["a", "b"] (by decide)
  exact ⟨by decide, h.1, h.2 (by unfold noSelfDependency; decide)⟩

end CimDomainGit
